import Mathlib

/-!
Verification development for the SwotDB spatial tiling index.

The Python source is embedded shallowly:
* geographic coordinates and timestamps are modelled as `Int` (every input
  that the claims exercise has exact integer coordinates; the Python float
  arithmetic involved — comparison, subtraction of 360 — is exact on them);
* the R-tree (`rtree.index.Index`) is modelled as the list of inserted
  `(id, bbox)` pairs, with `intersection` the inclusive axis-aligned
  overlap test over that list, in insertion order; `insert` validates
  its coordinates and raises `RTreeError` when a minimum exceeds a
  maximum, storing nothing (see `addTile`);
* Python dicts keep insertion order, so `metadata` is an association list;
* `xarray` datasets are modelled by `SwathFile`: per-line pixel arrays of
  `(lat, lon)` pairs, where a line that cannot be read (corrupt chunk) is
  `none` — reading a tile slice raises exactly when the slice touches such
  a line;
* file-system effects of `save`/`_autosave` are modelled by an explicit
  `FS` state over snapshot contents, with a boolean `writeOk` marking
  whether the serialisation write completes or raises mid-write.
-/

namespace SwotDB

/-! ### merge_line_ranges (SwotDB/src/query.py) -/

/-- Python `sorted` on pairs: lexicographic order. -/
def pairLE (a b : Int × Int) : Prop :=
  a.1 < b.1 ∨ (a.1 = b.1 ∧ a.2 ≤ b.2)

instance : DecidableRel pairLE := fun a b => by
  unfold pairLE; infer_instance

instance : IsTotal (Int × Int) pairLE := by
  constructor
  intro a b
  unfold pairLE
  omega

instance : IsTrans (Int × Int) pairLE := by
  constructor
  intro a b c hab hbc
  unfold pairLE at *
  omega

/-- The merging loop of `merge_line_ranges`: `cur` is the
`(current_start, current_end)` accumulator, the list is the remaining
sorted ranges. -/
def mergeLoop : Int × Int → List (Int × Int) → List (Int × Int)
  | cur, [] => [cur]
  | cur, r :: rs =>
      if r.1 ≤ cur.2 then mergeLoop (cur.1, max cur.2 r.2) rs
      else cur :: mergeLoop r rs

/-- Function `merge_line_ranges` from `SwotDB/src/query.py`: sort by start
(lexicographically, as Python `sorted` does on tuples), then sweep,
merging a range into the accumulator whenever its start is `≤` the
accumulated end.  Output slices are represented as pairs. -/
def merge_line_ranges (line_ranges : List (Int × Int)) : List (Int × Int) :=
  match List.insertionSort pairLE line_ranges with
  | [] => []
  | c :: rest => mergeLoop c rest

/-- Membership in the half-open union of a list of ranges. -/
def coveredBy (rs : List (Int × Int)) (x : Int) : Prop :=
  ∃ r ∈ rs, r.1 ≤ x ∧ x < r.2

/-! ### Data model (src/index.py) -/

/-- R-tree box `(minx, miny, maxx, maxy)` = `(lon_min, lat_min, lon_max,
lat_max)`, as packed by `_add_tile`. -/
structure BBox where
  min_lon : Int
  min_lat : Int
  max_lon : Int
  max_lat : Int
deriving DecidableEq, Repr

/-- One entry of `self.metadata` (keys `file`, `line_range`, `bbox`,
`time_range`). -/
structure TileMeta where
  file : String
  line_range : Nat × Nat
  bbox : BBox
  time_range : Int × Int
deriving DecidableEq, Repr

/-- In-memory state of a `SWOTSpatialIndex`.  The R-tree is the list of
inserted `(id, bbox)` pairs; `metadata` is the insertion-ordered dict. -/
structure Catalog where
  spatial_idx : List (Nat × BBox)
  metadata : List (Nat × TileMeta)
  file_counter : Nat
  indexed_files : List String
  tile_size : Nat
  base_path : Option String
  autosave_interval : Nat
  files_since_save : Nat
deriving DecidableEq, Repr

/-- Constructor `SWOTSpatialIndex.__init__` (fresh in-memory index). -/
def initCatalog (tile_size autosave_interval : Nat) : Catalog :=
  { spatial_idx := [], metadata := [], file_counter := 0,
    indexed_files := [], tile_size := tile_size, base_path := none,
    autosave_interval := autosave_interval, files_since_save := 0 }

/-- A swath file as `add_file` consumes it: per-line pixel arrays of
`(lat, lon)`; a line whose chunk cannot be read is `none` (reading any
tile slice that touches it raises).  File-level time bounds come from
`ds.time.min()` / `ds.time.max()`. -/
structure SwathFile where
  path : String
  time_min : Int
  time_max : Int
  lines : List (Option (List (Int × Int)))
deriving DecidableEq, Repr

/-- Split a character list on `/` (structural recursion, so that it
computes by kernel reduction). -/
def splitSlashAux : List Char → List Char → List String
  | [], acc => [String.mk acc.reverse]
  | ch :: rest, acc =>
      if ch = '/' then String.mk acc.reverse :: splitSlashAux rest []
      else splitSlashAux rest (ch :: acc)

/-- Re-join path components with `/`. -/
def joinSlash : List String → String
  | [] => ""
  | [x] => x
  | x :: xs => x ++ "/" ++ joinSlash xs

/-- Python `Path(p).parent` for ordinary slash-separated paths: drop the last
component (`.` when there is no directory part). -/
def parentDir (p : String) : String :=
  let parts := splitSlashAux p.data []
  if parts.length ≤ 1 then "." else joinSlash parts.dropLast

def intsMin : List Int → Int
  | [] => 0
  | x :: xs => xs.foldl min x

def intsMax : List Int → Int
  | [] => 0
  | x :: xs => xs.foldl max x

def seqOptions : List (Option α) → Option (List α)
  | [] => some []
  | none :: _ => none
  | some a :: rest => (seqOptions rest).map (fun l => a :: l)

/-- Python `range(0, numLines, ts)` paired with `min(start + ts, numLines)`,
written with fuel (`ts = 0` would raise in Python and never occurs). -/
def tileRangesFrom : Nat → Nat → Nat → Nat → List (Nat × Nat)
  | 0, _, _, _ => []
  | fuel + 1, start, numLines, ts =>
      if start < numLines then
        (start, min (start + ts) numLines) ::
          tileRangesFrom fuel (start + ts) numLines ts
      else []

def tileRanges (numLines ts : Nat) : List (Nat × Nat) :=
  if ts = 0 then [] else tileRangesFrom numLines 0 numLines ts

/-- Read the lat/lon slice for one tile and reduce it:
`(lat_min, lat_max, lon_min, lon_max)`.  `none` models the exception
raised when a line in the slice cannot be read. -/
def readTile (f : SwathFile) (r : Nat × Nat) :
    Option (Int × Int × Int × Int) :=
  match seqOptions ((f.lines.drop r.1).take (r.2 - r.1)) with
  | none => none
  | some lns =>
      let px := lns.flatten
      some (intsMin (px.map Prod.fst), intsMax (px.map Prod.fst),
            intsMin (px.map Prod.snd), intsMax (px.map Prod.snd))

/-- Method `_add_tile`: allocate the next id (`self.file_counter += 1`
runs first), insert the box into the R-tree, store the metadata entry.
The `rtree` library validates coordinates inside `insert` and raises
`RTreeError` ("Coordinates must not have minimums more than maximums")
when a minimum exceeds a maximum; that raise happens after the counter
bump but before both the R-tree insert and the metadata store, so the
`.error` state has the counter advanced and neither structure changed. -/
def addTile (c : Catalog) (fp : String) (ls le : Nat)
    (lat_min lat_max lon_min lon_max t_min t_max : Int) :
    Except Catalog Catalog :=
  let id := c.file_counter
  let bbox : BBox := ⟨lon_min, lat_min, lon_max, lat_max⟩
  if lon_max < lon_min ∨ lat_max < lat_min then
    .error { c with file_counter := id + 1 }
  else
    .ok { c with
      file_counter := id + 1,
      spatial_idx := c.spatial_idx ++ [(id, bbox)],
      metadata := c.metadata ++
        [(id, ⟨fp, (ls, le), bbox, (t_min, t_max)⟩)] }

/-- The dateline branch of the tiling loop: split into two tiles when
`lon_max - lon_min > 180`, else emit one tile.  An `RTreeError` raised
by either insert propagates. -/
def emitTiles (c : Catalog) (fp : String) (ls le : Nat)
    (lat_min lat_max lon_min lon_max t_min t_max : Int) :
    Except Catalog Catalog :=
  if lon_max - lon_min > 180 then
    match addTile c fp ls le lat_min lat_max lon_min 180 t_min t_max with
    | .error e => .error e
    | .ok c1 =>
        addTile c1 fp ls le lat_min lat_max (-180) (lon_max - 360)
          t_min t_max
  else
    addTile c fp ls le lat_min lat_max lon_min lon_max t_min t_max

/-- The tiling loop of `add_file`.  On a read failure or an R-tree
insert rejection the exception propagates with the catalog in its
current (partially updated) state. -/
def processTiles (c : Catalog) (f : SwathFile) :
    List (Nat × Nat) → Except Catalog Catalog
  | [] => .ok c
  | r :: rs =>
      match readTile f r with
      | none => .error c
      | some (lat_min, lat_max, lon_min, lon_max) =>
          match emitTiles c f.path r.1 r.2 lat_min lat_max lon_min
              lon_max f.time_min f.time_max with
          | .error e => .error e
          | .ok c1 => processTiles c1 f rs

/-- In-memory effect of `_autosave`: on a successful write the counter
resets; a failed write is caught and leaves the counter alone. -/
def autosaveMem (c : Catalog) (writeOk : Bool) : Catalog :=
  if writeOk then { c with files_since_save := 0 } else c

/-- First statement of `add_file`: set `base_path` from the file's
parent directory when it is still unset.  This runs before the
already-indexed check and before the file is opened. -/
def baseStep (c : Catalog) (f : SwathFile) : Catalog :=
  if c.base_path = none
  then { c with base_path := some (parentDir f.path) } else c

/-- Statements `self.indexed_files.add(...)` and `self.files_since_save += 1` at the
end of a successful `add_file`. -/
def bumpAdd (c1 : Catalog) (f : SwathFile) : Catalog :=
  { c1 with
    indexed_files := c1.indexed_files ++ [f.path],
    files_since_save := c1.files_since_save + 1 }

/-- Tail of a successful `add_file`: record the path in `indexed_files`,
bump `files_since_save`, and run the autosave check. -/
def finishAdd (c1 : Catalog) (f : SwathFile) (writeOk : Bool) : Catalog :=
  if (bumpAdd c1 f).autosave_interval > 0 ∧
      (bumpAdd c1 f).files_since_save ≥ (bumpAdd c1 f).autosave_interval
  then autosaveMem (bumpAdd c1 f) writeOk
  else bumpAdd c1 f

/-- Method `add_file`.  `tsArg` is the optional `tile_size` argument; `writeOk`
says whether an autosave triggered by this call would succeed.  The
`.error` result carries the catalog state left behind by a propagated
read exception. -/
def add_file (c : Catalog) (f : SwathFile) (tsArg : Option Nat)
    (writeOk : Bool) : Except Catalog Catalog :=
  if f.path ∈ (baseStep c f).indexed_files then .ok (baseStep c f)
  else
    match processTiles (baseStep c f) f
        (tileRanges f.lines.length (tsArg.getD (baseStep c f).tile_size)) with
    | .error e => .error e
    | .ok c1 => .ok (finishAdd c1 f writeOk)

/-- State carried by either outcome of `add_file`. -/
def resState : Except Catalog Catalog → Catalog
  | .ok c => c
  | .error c => c

def isErr : Except Catalog Catalog → Bool
  | .ok _ => false
  | .error _ => true

/-! ### query (src/index.py) -/

/-- Inclusive axis-aligned overlap, the R-tree `intersection` test
(boundary-touching counts). -/
def boxIntersects (q t : BBox) : Bool :=
  decide (q.min_lon ≤ t.max_lon) && decide (t.min_lon ≤ q.max_lon) &&
  decide (q.min_lat ≤ t.max_lat) && decide (t.min_lat ≤ q.max_lat)

/-- Dict lookup `self.metadata[tile_id]` guarded by
`tile_id not in self.metadata`. -/
def lookupMeta (m : List (Nat × TileMeta)) (id : Nat) : Option TileMeta :=
  (m.find? (fun p => p.1 == id)).map Prod.snd

/-- Python truthiness of an optional numeric bound: `None` and `0` are
falsy, every other number is truthy. -/
def truthy : Option Int → Bool
  | none => false
  | some t => t != 0

/-- Result entry `{file, line_range, bbox}`. -/
structure QueryResult where
  file : String
  line_range : Nat × Nat
  bbox : BBox
deriving DecidableEq, Repr

/-- Method `SWOTSpatialIndex.query`: spatial candidates from the R-tree, then
the truthiness-guarded time filter. -/
def query (c : Catalog) (lat_min lat_max lon_min lon_max : Int)
    (time_start time_end : Option Int) : List QueryResult :=
  let qbox : BBox := ⟨lon_min, lat_min, lon_max, lat_max⟩
  (c.spatial_idx.filter (fun p => boxIntersects qbox p.2)).filterMap
    (fun p =>
      match lookupMeta c.metadata p.1 with
      | none => none
      | some m =>
          if truthy time_start ∧ m.time_range.2 < time_start.getD 0 then
            none
          else if truthy time_end ∧ m.time_range.1 > time_end.getD 0 then
            none
          else some ⟨m.file, m.line_range, m.bbox⟩)

/-! ### Persistence (save / _autosave / load, src/index.py) -/

/-- The pickled snapshot record. -/
structure Snapshot where
  metadata : List (Nat × TileMeta)
  file_counter : Nat
  indexed_files : List String
  tile_size : Nat
  base_path : Option String
deriving DecidableEq, Repr

def save_data (c : Catalog) : Snapshot :=
  { metadata := c.metadata, file_counter := c.file_counter,
    indexed_files := c.indexed_files, tile_size := c.tile_size,
    base_path := c.base_path }

/-- Classmethod `SWOTSpatialIndex.load`: restore the persisted fields and rebuild
the R-tree by inserting every `(id, bbox)` from `metadata` in dict
order. -/
def loadSnap (s : Snapshot) (autosave_interval : Nat) : Catalog :=
  { spatial_idx := s.metadata.map (fun p => (p.1, p.2.bbox)),
    metadata := s.metadata, file_counter := s.file_counter,
    indexed_files := s.indexed_files, tile_size := s.tile_size,
    base_path := s.base_path, autosave_interval := autosave_interval,
    files_since_save := 0 }

/-- Contents of one on-disk file slot. -/
inductive FileState where
  | absent
  | intact (s : Snapshot)
  | corrupt
deriving DecidableEq, Repr

/-- The two file slots `save`/`_autosave` touch: the live snapshot
(`..._metadata.pkl`) and the temp file (`..._metadata.pkl.tmp`). -/
structure FS where
  snapshot : FileState
  temp : FileState
deriving DecidableEq, Repr

/-- Method `SWOTSpatialIndex.save`: opens the live snapshot with mode `wb`
(truncating it) and pickles directly into it; no temp file, no rename.
A write that fails mid-dump leaves the truncated/partial live file and
the exception propagates (the counter is only reset on success). -/
def save (c : Catalog) (fs : FS) (writeOk : Bool) : Catalog × FS :=
  if writeOk then
    ({ c with files_since_save := 0 },
     { fs with snapshot := .intact (save_data c) })
  else
    (c, { fs with snapshot := .corrupt })

/-- Method `SWOTSpatialIndex._autosave`: pickle into the temp file, then
`shutil.move` it over the live snapshot; on any failure the exception is
caught, the temp file is unlinked and the live snapshot is untouched. -/
def autosave (c : Catalog) (fs : FS) (writeOk : Bool) : Catalog × FS :=
  if writeOk then
    ({ c with files_since_save := 0 },
     { snapshot := .intact (save_data c), temp := .absent })
  else
    (c, { fs with temp := .absent })

/-! ### Invariants of the tiling loop -/

/-- How any prefix of `add_file`'s tiling loop relates the catalog it
started from to the catalog it produced: metadata and R-tree grow by
appending entries whose ids are at least the old counter, the counter
never decreases, and every other field is untouched. -/
def growsFrom (c c' : Catalog) : Prop :=
  (∃ t, c'.metadata = c.metadata ++ t ∧ ∀ p ∈ t, c.file_counter ≤ p.1) ∧
  (∃ s, c'.spatial_idx = c.spatial_idx ++ s) ∧
  c.file_counter ≤ c'.file_counter ∧
  c'.indexed_files = c.indexed_files ∧
  c'.base_path = c.base_path ∧
  c'.tile_size = c.tile_size ∧
  c'.autosave_interval = c.autosave_interval ∧
  c'.files_since_save = c.files_since_save


/-- A swath file every line of which can be read. -/
def readable (f : SwathFile) : Prop := ∀ l ∈ f.lines, l.isSome

instance : DecidablePred readable := fun f => by
  unfold readable; infer_instance


def lockstep (c : Catalog) : Prop :=
  c.spatial_idx = c.metadata.map (fun p => (p.1, p.2.bbox))

/-! ### The spec's time filter, and concrete inputs -/

/-- Modelled from the spec's words (refinement target for the time
filter): keep a tile iff its time range overlaps `[time_start,
time_end]`, an absent bound imposing no constraint on its side. -/
def overlapKeep (ts te : Option Int) (tr : Int × Int) : Bool :=
  (match ts with
   | none => true
   | some s => decide (s ≤ tr.2)) &&
  (match te with
   | none => true
   | some e => decide (tr.1 ≤ e))

/-- Function `query` with its time filter replaced by the spec's overlap test
(spatial part unchanged). -/
def querySpecOverlap (c : Catalog) (lat_min lat_max lon_min lon_max : Int)
    (time_start time_end : Option Int) : List QueryResult :=
  let qbox : BBox := ⟨lon_min, lat_min, lon_max, lat_max⟩
  (c.spatial_idx.filter (fun p => boxIntersects qbox p.2)).filterMap
    (fun p =>
      match lookupMeta c.metadata p.1 with
      | none => none
      | some m =>
          if overlapKeep time_start time_end m.time_range then
            some ⟨m.file, m.line_range, m.bbox⟩
          else none)

/-- A one-tile swath whose pixels sit on both sides of the antimeridian:
longitudes 170°E and 170°W (raw values `170` and `-170`). -/
def demoSeamFile : SwathFile :=
  { path := "/data/pass1.nc", time_min := 100, time_max := 200,
    lines := [some [(0, 170), (0, -170)]] }

/-- State left by ingesting `demoSeamFile` into a fresh index: the split
triggers, the first half is stored, the second half's R-tree insert
raises, and `add_file` propagates the exception with this state. -/
def seamCat : Catalog :=
  resState (add_file (initCatalog 493 100) demoSeamFile none true)

/-- Every bbox stored in the catalog is a valid (non-inverted)
axis-aligned box. -/
def validCat (c : Catalog) : Prop :=
  ∀ p ∈ c.metadata,
    p.2.bbox.min_lon ≤ p.2.bbox.max_lon ∧
    p.2.bbox.min_lat ≤ p.2.bbox.max_lat

/-- A file none of whose lines can be read. -/
def demoBadFile : SwathFile :=
  { path := "/data/bad.nc", time_min := 0, time_max := 1,
    lines := [none] }

/-- A two-line file whose second line cannot be read; with
`tile_size = 1` its second tile raises mid-ingestion. -/
def demoPartFile : SwathFile :=
  { path := "/data/p2.nc", time_min := 0, time_max := 1,
    lines := [some [(0, 0)], none] }

/-- The same file once its second line reads fine. -/
def demoFixedFile : SwathFile :=
  { path := "/data/p2.nc", time_min := 0, time_max := 1,
    lines := [some [(0, 0)], some [(1, 1)]] }

/-- State after successfully ingesting `demoFixedFile` into a fresh
index with `tile_size = 1`. -/
def fixedCat : Catalog :=
  resState (add_file (initCatalog 1 100) demoFixedFile none true)

/-- A one-tile file whose time range lies entirely before the epoch. -/
def demoTimeFile : SwathFile :=
  { path := "/data/t.nc", time_min := -10, time_max := -1,
    lines := [some [(0, 0)]] }

/-- Fresh index after ingesting `demoTimeFile` with defaults. -/
def timeCat : Catalog :=
  resState (add_file (initCatalog 493 100) demoTimeFile none true)

/-! ### Lemmas -/

lemma mergeLoop_start_le {l : List (Int × Int)} :
    ∀ cur, List.Pairwise (fun a b : Int × Int => a.1 ≤ b.1) l →
      (∀ p ∈ l, cur.1 ≤ p.1) →
      ∀ o ∈ mergeLoop cur l, cur.1 ≤ o.1 := by
  induction l with
  | nil =>
      intro cur _ _ o ho
      simp only [mergeLoop, List.mem_singleton] at ho
      subst ho; exact le_refl _
  | cons r rs ih =>
      intro cur hpw hlb o ho
      rw [List.pairwise_cons] at hpw
      unfold mergeLoop at ho
      split at ho
      · exact ih (cur.1, max cur.2 r.2) hpw.2
          (fun p hp => hlb p (List.mem_cons_of_mem _ hp)) o ho
      · rcases List.mem_cons.mp ho with h | h
        · subst h; exact le_refl _
        · have hr : cur.1 ≤ r.1 := hlb r (List.mem_cons_self _ _)
          have := ih r hpw.2 hpw.1 o h
          omega

lemma mergeLoop_pairwise {l : List (Int × Int)} :
    ∀ cur, List.Pairwise (fun a b : Int × Int => a.1 ≤ b.1) l →
      (∀ p ∈ l, cur.1 ≤ p.1) →
      List.Pairwise (fun a b : Int × Int => a.1 ≤ b.1 ∧ a.2 < b.1)
        (mergeLoop cur l) := by
  induction l with
  | nil =>
      intro cur _ _
      simp [mergeLoop]
  | cons r rs ih =>
      intro cur hpw hlb
      rw [List.pairwise_cons] at hpw
      unfold mergeLoop
      split
      · exact ih (cur.1, max cur.2 r.2) hpw.2
          (fun p hp => hlb p (List.mem_cons_of_mem _ hp))
      · rw [List.pairwise_cons]
        constructor
        · intro o ho
          have h1 := mergeLoop_start_le r hpw.2 hpw.1 o ho
          have h2 : cur.1 ≤ r.1 := hlb r (List.mem_cons_self _ _)
          rename_i hnot
          omega
        · exact ih r hpw.2 hpw.1

lemma mergeLoop_covers {l : List (Int × Int)} :
    ∀ cur x, List.Pairwise (fun a b : Int × Int => a.1 ≤ b.1) l →
      (∀ p ∈ l, cur.1 ≤ p.1) →
      (coveredBy (mergeLoop cur l) x ↔
        (cur.1 ≤ x ∧ x < cur.2) ∨ coveredBy l x) := by
  induction l with
  | nil =>
      intro cur x _ _
      simp [mergeLoop, coveredBy]
  | cons r rs ih =>
      intro cur x hpw hlb
      rw [List.pairwise_cons] at hpw
      unfold mergeLoop
      split
      · rename_i hmerge
        rw [ih (cur.1, max cur.2 r.2) x hpw.2
          (fun p hp => hlb p (List.mem_cons_of_mem _ hp))]
        have hcr : cur.1 ≤ r.1 := hlb r (List.mem_cons_self _ _)
        constructor
        · rintro (hin | hin)
          · simp only at hin
            rcases max_cases cur.2 r.2 with ⟨hm, _⟩ | ⟨hm, _⟩
            · rw [hm] at hin; exact Or.inl hin
            · rw [hm] at hin
              by_cases hx : x < cur.2
              · exact Or.inl ⟨hin.1, hx⟩
              · refine Or.inr ⟨r, List.mem_cons_self _ _, ?_, hin.2⟩
                omega
          · exact Or.inr (by
              obtain ⟨p, hp, hpx⟩ := hin
              exact ⟨p, List.mem_cons_of_mem _ hp, hpx⟩)
        · rintro (hin | hin)
          · exact Or.inl (by
              rcases max_cases cur.2 r.2 with ⟨hm, h2⟩ | ⟨hm, h2⟩ <;>
                simp only [hm] <;> omega)
          · obtain ⟨p, hp, hpx⟩ := hin
            rcases List.mem_cons.mp hp with hpr | hprs
            · subst hpr
              exact Or.inl (by
                rcases max_cases cur.2 p.2 with ⟨hm, h2⟩ | ⟨hm, h2⟩ <;>
                  simp only [hm] <;> omega)
            · exact Or.inr ⟨p, hprs, hpx⟩
      · rename_i hgap
        have hiff := ih r x hpw.2 hpw.1
        constructor
        · intro hin
          obtain ⟨p, hp, hpx⟩ := hin
          rcases List.mem_cons.mp hp with hpc | hpm
          · subst hpc; exact Or.inl hpx
          · rcases hiff.mp ⟨p, hpm, hpx⟩ with h | h
            · exact Or.inr ⟨r, List.mem_cons_self _ _, h⟩
            · obtain ⟨q, hq, hqx⟩ := h
              exact Or.inr ⟨q, List.mem_cons_of_mem _ hq, hqx⟩
        · rintro (hin | hin)
          · exact ⟨cur, List.mem_cons_self _ _, hin⟩
          · obtain ⟨p, hp, hpx⟩ := hin
            rcases List.mem_cons.mp hp with hpc | hpm
            · subst hpc
              obtain ⟨q, hq, hqx⟩ := hiff.mpr (Or.inl hpx)
              exact ⟨q, List.mem_cons_of_mem _ hq, hqx⟩
            · obtain ⟨q, hq, hqx⟩ := hiff.mpr (Or.inr ⟨p, hpm, hpx⟩)
              exact ⟨q, List.mem_cons_of_mem _ hq, hqx⟩

lemma pairLE_imp_start_le :
    ∀ a b : Int × Int, pairLE a b → a.1 ≤ b.1 := by
  intro a b h
  unfold pairLE at h
  omega

lemma growsFrom_refl (c : Catalog) : growsFrom c c := by
  refine ⟨⟨[], by simp⟩, ⟨[], by simp⟩, le_refl _, rfl, rfl, rfl, rfl, rfl⟩

lemma growsFrom_trans {a b c : Catalog} (h1 : growsFrom a b)
    (h2 : growsFrom b c) : growsFrom a c := by
  obtain ⟨⟨t1, hm1, hi1⟩, ⟨s1, hs1⟩, hc1, hf1, hb1, ht1, ha1, hv1⟩ := h1
  obtain ⟨⟨t2, hm2, hi2⟩, ⟨s2, hs2⟩, hc2, hf2, hb2, ht2, ha2, hv2⟩ := h2
  refine ⟨⟨t1 ++ t2, ?_, ?_⟩, ⟨s1 ++ s2, ?_⟩, le_trans hc1 hc2, ?_, ?_, ?_, ?_, ?_⟩
  · rw [hm2, hm1, List.append_assoc]
  · intro p hp
    rcases List.mem_append.mp hp with h | h
    · exact hi1 p h
    · exact le_trans hc1 (hi2 p h)
  · rw [hs2, hs1, List.append_assoc]
  · rw [hf2, hf1]
  · rw [hb2, hb1]
  · rw [ht2, ht1]
  · rw [ha2, ha1]
  · rw [hv2, hv1]

lemma growsFrom_addTile (c : Catalog) (fp : String) (ls le : Nat)
    (a b d e t1 t2 : Int) :
    growsFrom c (resState (addTile c fp ls le a b d e t1 t2)) := by
  unfold addTile
  split
  · exact ⟨⟨[], by simp [resState], by simp⟩, ⟨[], by simp [resState]⟩,
      Nat.le_succ _, rfl, rfl, rfl, rfl, rfl⟩
  · exact ⟨⟨[(c.file_counter, ⟨fp, (ls, le), ⟨d, a, e, b⟩, (t1, t2)⟩)],
      by simp [resState], by simp⟩,
      ⟨[(c.file_counter, ⟨d, a, e, b⟩)], by simp [resState]⟩,
      Nat.le_succ _, rfl, rfl, rfl, rfl, rfl⟩

lemma growsFrom_emitTiles (c : Catalog) (fp : String) (ls le : Nat)
    (a b d e t1 t2 : Int) :
    growsFrom c (resState (emitTiles c fp ls le a b d e t1 t2)) := by
  unfold emitTiles
  split
  · rcases h1 : addTile c fp ls le a b d 180 t1 t2 with e1 | c1
    · have hg := growsFrom_addTile c fp ls le a b d 180 t1 t2
      rw [h1] at hg
      exact hg
    · have hg := growsFrom_addTile c fp ls le a b d 180 t1 t2
      rw [h1] at hg
      have hg2 := growsFrom_addTile c1 fp ls le a b (-180) (e - 360) t1 t2
      exact growsFrom_trans hg hg2
  · exact growsFrom_addTile ..

lemma growsFrom_processTiles (f : SwathFile) :
    ∀ (rs : List (Nat × Nat)) (c : Catalog),
      growsFrom c (resState (processTiles c f rs)) := by
  intro rs
  induction rs with
  | nil => intro c; exact growsFrom_refl c
  | cons r rest ih =>
      intro c
      rcases h : readTile f r with _ | v
      · simp only [processTiles, h]
        exact growsFrom_refl c
      · obtain ⟨a, b, d, e⟩ := v
        simp only [processTiles, h]
        rcases he : emitTiles c f.path r.1 r.2 a b d e f.time_min
            f.time_max with e1 | c1
        · have hg := growsFrom_emitTiles c f.path r.1 r.2 a b d e
            f.time_min f.time_max
          rw [he] at hg
          exact hg
        · have hg := growsFrom_emitTiles c f.path r.1 r.2 a b d e
            f.time_min f.time_max
          rw [he] at hg
          exact growsFrom_trans hg (ih c1)

lemma autosaveMem_fields (c : Catalog) (ok : Bool) :
    (autosaveMem c ok).metadata = c.metadata ∧
    (autosaveMem c ok).spatial_idx = c.spatial_idx ∧
    (autosaveMem c ok).file_counter = c.file_counter ∧
    (autosaveMem c ok).indexed_files = c.indexed_files ∧
    (autosaveMem c ok).base_path = c.base_path ∧
    (autosaveMem c ok).tile_size = c.tile_size := by
  unfold autosaveMem
  split <;> simp

lemma finishAdd_fields (c : Catalog) (f : SwathFile) (ok : Bool) :
    (finishAdd c f ok).metadata = c.metadata ∧
    (finishAdd c f ok).spatial_idx = c.spatial_idx ∧
    (finishAdd c f ok).file_counter = c.file_counter ∧
    (finishAdd c f ok).indexed_files = c.indexed_files ++ [f.path] ∧
    (finishAdd c f ok).base_path = c.base_path ∧
    (finishAdd c f ok).tile_size = c.tile_size := by
  unfold finishAdd bumpAdd
  split
  · obtain ⟨h1, h2, h3, h4, h5, h6⟩ := autosaveMem_fields
      { c with indexed_files := c.indexed_files ++ [f.path],
               files_since_save := c.files_since_save + 1 } ok
    exact ⟨h1, h2, h3, h4, h5, h6⟩
  · exact ⟨rfl, rfl, rfl, rfl, rfl, rfl⟩

lemma baseStep_fields (c : Catalog) (f : SwathFile) :
    (baseStep c f).metadata = c.metadata ∧
    (baseStep c f).spatial_idx = c.spatial_idx ∧
    (baseStep c f).file_counter = c.file_counter ∧
    (baseStep c f).indexed_files = c.indexed_files ∧
    (baseStep c f).tile_size = c.tile_size := by
  unfold baseStep
  split <;> simp

lemma baseStep_base_path (c : Catalog) (f : SwathFile) :
    (baseStep c f).base_path =
      match c.base_path with
      | none => some (parentDir f.path)
      | some b => some b := by
  unfold baseStep
  rcases h : c.base_path with _ | b <;> simp [h]

lemma baseStep_isSome (c : Catalog) (f : SwathFile) :
    (baseStep c f).base_path ≠ none := by
  rw [baseStep_base_path]
  rcases c.base_path with _ | b <;> simp

lemma baseStep_of_isSome {c : Catalog} (f : SwathFile)
    (h : c.base_path ≠ none) : baseStep c f = c := by
  unfold baseStep
  split
  · rename_i hn; exact absurd hn h
  · rfl

/-- Lockstep invariant of §3: the R-tree holds exactly the `(id, bbox)`
pairs of the metadata map, in the same order. -/
lemma query_ext {c1 c2 : Catalog} (hs : c1.spatial_idx = c2.spatial_idx)
    (hm : c1.metadata = c2.metadata) (a b d e : Int)
    (ts te : Option Int) :
    query c1 a b d e ts te = query c2 a b d e ts te := by
  unfold query
  rw [hs, hm]

lemma lockstep_addTile {c : Catalog} (h : lockstep c) (fp : String)
    (ls le : Nat) (a b d e t1 t2 : Int) :
    lockstep (resState (addTile c fp ls le a b d e t1 t2)) := by
  unfold lockstep addTile at *
  split
  · exact h
  · simp [resState, h]

lemma lockstep_emitTiles {c : Catalog} (h : lockstep c) (fp : String)
    (ls le : Nat) (a b d e t1 t2 : Int) :
    lockstep (resState (emitTiles c fp ls le a b d e t1 t2)) := by
  unfold emitTiles
  split
  · rcases h1 : addTile c fp ls le a b d 180 t1 t2 with e1 | c1
    · have hl := lockstep_addTile h fp ls le a b d 180 t1 t2
      rw [h1] at hl
      exact hl
    · have hl := lockstep_addTile h fp ls le a b d 180 t1 t2
      rw [h1] at hl
      exact lockstep_addTile hl fp ls le a b (-180) (e - 360) t1 t2
  · exact lockstep_addTile h ..

lemma lockstep_processTiles (f : SwathFile) :
    ∀ (rs : List (Nat × Nat)) (c : Catalog), lockstep c →
      lockstep (resState (processTiles c f rs)) := by
  intro rs
  induction rs with
  | nil => intro c h; exact h
  | cons r rest ih =>
      intro c h
      rcases hr : readTile f r with _ | v
      · simp only [processTiles, hr]
        exact h
      · obtain ⟨a, b, d, e⟩ := v
        simp only [processTiles, hr]
        rcases he : emitTiles c f.path r.1 r.2 a b d e f.time_min
            f.time_max with e1 | c1
        · have hl := lockstep_emitTiles h f.path r.1 r.2 a b d e
            f.time_min f.time_max
          rw [he] at hl
          exact hl
        · have hl := lockstep_emitTiles h f.path r.1 r.2 a b d e
            f.time_min f.time_max
          rw [he] at hl
          exact ih c1 hl

lemma lockstep_baseStep {c : Catalog} (h : lockstep c) (f : SwathFile) :
    lockstep (baseStep c f) := by
  unfold lockstep at *
  obtain ⟨h1, h2, _, _, _⟩ := baseStep_fields c f
  rw [h1, h2, h]

lemma lockstep_finishAdd {c : Catalog} (h : lockstep c) (f : SwathFile)
    (ok : Bool) : lockstep (finishAdd c f ok) := by
  unfold lockstep at *
  obtain ⟨h1, h2, _, _, _, _⟩ := finishAdd_fields c f ok
  rw [h1, h2, h]

lemma lockstep_add_file {c : Catalog} (h : lockstep c) (f : SwathFile)
    (tsArg : Option Nat) (ok : Bool) :
    lockstep (resState (add_file c f tsArg ok)) := by
  unfold add_file
  have hb := lockstep_baseStep h f
  split
  · exact hb
  · rcases hp : processTiles (baseStep c f) f
        (tileRanges f.lines.length (tsArg.getD (baseStep c f).tile_size))
      with e | c1
    · have hq := lockstep_processTiles f
        (tileRanges f.lines.length (tsArg.getD (baseStep c f).tile_size))
        (baseStep c f) hb
      rw [hp] at hq
      simp only [hp, resState]
      exact hq
    · have hq := lockstep_processTiles f
        (tileRanges f.lines.length (tsArg.getD (baseStep c f).tile_size))
        (baseStep c f) hb
      rw [hp] at hq
      simp only [hp, resState]
      exact lockstep_finishAdd hq f ok


lemma validCat_addTile {c : Catalog} (h : validCat c) (fp : String)
    (ls le : Nat) (a b d e t1 t2 : Int) :
    validCat (resState (addTile c fp ls le a b d e t1 t2)) := by
  unfold validCat addTile at *
  split
  · exact h
  · rename_i hv
    intro p hp
    simp only [resState, List.mem_append, List.mem_singleton] at hp
    rcases hp with hp | hp
    · exact h p hp
    · subst hp
      refine ⟨?_, ?_⟩ <;> dsimp <;> omega

lemma validCat_emitTiles {c : Catalog} (h : validCat c) (fp : String)
    (ls le : Nat) (a b d e t1 t2 : Int) :
    validCat (resState (emitTiles c fp ls le a b d e t1 t2)) := by
  unfold emitTiles
  split
  · rcases h1 : addTile c fp ls le a b d 180 t1 t2 with e1 | c1
    · have hl := validCat_addTile h fp ls le a b d 180 t1 t2
      rw [h1] at hl
      exact hl
    · have hl := validCat_addTile h fp ls le a b d 180 t1 t2
      rw [h1] at hl
      exact validCat_addTile hl fp ls le a b (-180) (e - 360) t1 t2
  · exact validCat_addTile h fp ls le a b d e t1 t2

lemma validCat_processTiles (f : SwathFile) :
    ∀ (rs : List (Nat × Nat)) (c : Catalog), validCat c →
      validCat (resState (processTiles c f rs)) := by
  intro rs
  induction rs with
  | nil => intro c h; exact h
  | cons r rest ih =>
      intro c h
      rcases hr : readTile f r with _ | v
      · simp only [processTiles, hr]
        exact h
      · obtain ⟨a, b, d, e⟩ := v
        simp only [processTiles, hr]
        rcases he : emitTiles c f.path r.1 r.2 a b d e f.time_min
            f.time_max with e1 | c1
        · have hl := validCat_emitTiles h f.path r.1 r.2 a b d e
            f.time_min f.time_max
          rw [he] at hl
          exact hl
        · have hl := validCat_emitTiles h f.path r.1 r.2 a b d e
            f.time_min f.time_max
          rw [he] at hl
          exact ih c1 hl

lemma validCat_baseStep {c : Catalog} (h : validCat c) (f : SwathFile) :
    validCat (baseStep c f) := by
  unfold validCat at *
  rw [(baseStep_fields c f).1]
  exact h

lemma validCat_finishAdd {c : Catalog} (h : validCat c) (f : SwathFile)
    (ok : Bool) : validCat (finishAdd c f ok) := by
  unfold validCat at *
  rw [(finishAdd_fields c f ok).1]
  exact h

lemma validCat_add_file {c : Catalog} (h : validCat c) (f : SwathFile)
    (tsArg : Option Nat) (ok : Bool) :
    validCat (resState (add_file c f tsArg ok)) := by
  unfold add_file
  have hb := validCat_baseStep h f
  split
  · exact hb
  · rcases hp : processTiles (baseStep c f) f
        (tileRanges f.lines.length (tsArg.getD (baseStep c f).tile_size))
      with e | c1
    · have hq := validCat_processTiles f
        (tileRanges f.lines.length (tsArg.getD (baseStep c f).tile_size))
        (baseStep c f) hb
      rw [hp] at hq
      simp only [hp, resState]
      exact hq
    · have hq := validCat_processTiles f
        (tileRanges f.lines.length (tsArg.getD (baseStep c f).tile_size))
        (baseStep c f) hb
      rw [hp] at hq
      simp only [hp, resState]
      exact validCat_finishAdd hq f ok

lemma timeFilter_eq (ts te : Option Int) (tr : Int × Int)
    (hts : ts ≠ some 0) (hte : te ≠ some 0) (res : QueryResult) :
    (if truthy ts ∧ tr.2 < ts.getD 0 then none
     else if truthy te ∧ tr.1 > te.getD 0 then none
     else some res) =
    (if overlapKeep ts te tr then some res else none) := by
  rcases ts with _ | s <;> rcases te with _ | e
  · simp [truthy, overlapKeep]
  · have he : e ≠ 0 := by intro h; exact hte (by rw [h])
    simp only [truthy, overlapKeep, Option.getD_some, Option.getD_none,
      ne_eq, he, not_false_eq_true, bne_iff_ne, true_and, Bool.true_and,
      Bool.false_eq_true, false_and, if_false, decide_eq_true_eq]
    split_ifs <;> first | rfl | omega
  · have hs : s ≠ 0 := by intro h; exact hts (by rw [h])
    simp only [truthy, overlapKeep, Option.getD_some, Option.getD_none,
      ne_eq, hs, not_false_eq_true, bne_iff_ne, true_and, Bool.true_and,
      Bool.and_true, Bool.false_eq_true, false_and, if_false,
      decide_eq_true_eq]
    split_ifs <;> first | rfl | omega
  · have hs : s ≠ 0 := by intro h; exact hts (by rw [h])
    have he : e ≠ 0 := by intro h; exact hte (by rw [h])
    simp only [truthy, overlapKeep, Option.getD_some, ne_eq, hs, he,
      not_false_eq_true, bne_iff_ne, true_and, Bool.and_eq_true,
      decide_eq_true_eq]
    split_ifs <;> first | rfl | omega

/-! ### Claims -/

/-- Claim C1: for every list of half-open integer line ranges,
`merge_line_ranges` returns a list of ranges sorted by start, pairwise
disjoint and non-adjacent (no two output ranges, in order, satisfy
`next.start ≤ current.end`), whose half-open union equals the union of
the input ranges. -/
theorem C1_merge_line_ranges_correct (rs : List (Int × Int)) :
    List.Pairwise (fun a b : Int × Int => a.1 ≤ b.1 ∧ a.2 < b.1)
      (merge_line_ranges rs) ∧
    ∀ x : Int, coveredBy (merge_line_ranges rs) x ↔ coveredBy rs x := by
  have hsorted := List.sorted_insertionSort pairLE rs
  have hperm := List.perm_insertionSort pairLE rs
  unfold merge_line_ranges
  rcases hs : List.insertionSort pairLE rs with _ | ⟨c, rest⟩
  · constructor
    · simp
    · intro x
      rw [hs] at hperm
      have : rs = [] := hperm.symm.eq_nil
      simp [this, coveredBy]
  · rw [hs] at hsorted hperm
    have hpw : List.Pairwise (fun a b : Int × Int => a.1 ≤ b.1) (c :: rest) :=
      hsorted.imp (fun h => pairLE_imp_start_le _ _ h)
    rw [List.pairwise_cons] at hpw
    constructor
    · exact mergeLoop_pairwise c hpw.2 hpw.1
    · intro x
      rw [mergeLoop_covers c x hpw.2 hpw.1]
      have hmem : ∀ p : Int × Int, p ∈ c :: rest ↔ p ∈ rs :=
        fun p => hperm.mem_iff
      constructor
      · rintro (h | h)
        · exact ⟨c, (hmem c).mp (List.mem_cons_self _ _), h⟩
        · obtain ⟨p, hp, hpx⟩ := h
          exact ⟨p, (hmem p).mp (List.mem_cons_of_mem _ hp), hpx⟩
      · rintro ⟨p, hp, hpx⟩
        rcases List.mem_cons.mp ((hmem p).mpr hp) with hpc | hpm
        · subst hpc; exact Or.inl hpx
        · exact Or.inr ⟨p, hpm, hpx⟩

/-- Claim C2 counterexample: the explicit `save()` writes directly into
the live snapshot file (mode `wb`, no temporary, no rename), so a write
failure during `save()` leaves the prior snapshot destroyed rather than
intact. -/
theorem C2_cex :
    (save seamCat ⟨.intact (save_data (initCatalog 1 1)), .absent⟩
        false).2.snapshot = .corrupt ∧
    FileState.corrupt ≠ .intact (save_data (initCatalog 1 1)) := by
  exact ⟨rfl, by decide⟩

/-- Claim C2 (amended): only `_autosave` writes to a temporary file and
atomically renames it over the live snapshot — on autosave failure the
prior snapshot remains intact and the temporary file is removed, and on
success the snapshot holds the serialized catalog with no temporary left
behind.  The explicit `save()` writes directly into the live snapshot:
it succeeds in place, and a mid-write failure corrupts the prior
snapshot. -/
theorem C2_amended_only_autosave_crash_safe :
    ∀ (c : Catalog) (fs : FS),
      ((autosave c fs false).2.snapshot = fs.snapshot ∧
       (autosave c fs false).2.temp = .absent) ∧
      ((autosave c fs true).2.snapshot = .intact (save_data c) ∧
       (autosave c fs true).2.temp = .absent) ∧
      (save c fs true).2.snapshot = .intact (save_data c) ∧
      (save c fs false).2.snapshot = .corrupt := by
  intro c fs
  exact ⟨⟨rfl, rfl⟩, ⟨rfl, rfl⟩, rfl, rfl⟩

/-- Claim C3 counterexample: on the antimeridian-spanning input
(raw pixel longitudes `170` and `-170`, computed `lon_min = -170`,
`lon_max = 170`, raw span `340 > 180`) the real `add_file` does not
produce two queryable tiles `[170, 180]` and `[-180, -170]`: the first
emitted half is `[-170, 180]`, the second half's R-tree insert raises
`RTreeError` on the inverted box, and `add_file` propagates the
exception with exactly one tile stored and the file left unindexed. -/
theorem C3_cex :
    isErr (add_file (initCatalog 493 100) demoSeamFile none true)
        = true ∧
    seamCat.metadata.map (fun p => (p.2.bbox.min_lon, p.2.bbox.max_lon)) =
      [(-170, 180)] ∧
    seamCat.indexed_files = [] := by
  exact ⟨rfl, rfl, rfl⟩

/-- Claim C3 (amended): on that input `add_file` attempts the two halves
`[lon_min, 180] = [-170, 180]` and `[-180, lon_max - 360] = [-180, -190]`.
The first is stored under id 0 and returned by spatial query boxes
intersecting it; the second is rejected by the R-tree coordinate
validation (`min > max`) after its id 1 was allocated, the exception
propagates out of `add_file`, no second tile is queryable, and the file
is not marked indexed. -/
theorem C3_amended_seam_split :
    isErr (add_file (initCatalog 493 100) demoSeamFile none true)
        = true ∧
    seamCat.metadata.map
        (fun p =>
          (p.1, p.2.line_range, p.2.bbox.min_lon, p.2.bbox.max_lon)) =
      [(0, (0, 1), -170, 180)] ∧
    seamCat.file_counter = 2 ∧
    query seamCat 0 0 179 180 none none =
      [⟨"/data/pass1.nc", (0, 1), ⟨-170, 0, 180, 0⟩⟩] ∧
    query seamCat 0 0 (-190) (-180) none none = [] ∧
    seamCat.indexed_files = [] := by
  exact ⟨rfl, rfl, rfl, rfl, rfl, rfl⟩

/-- Claim C4 counterexample: with computed `lon_min = -170`,
`lon_max = 170` (triggering the split), the emitted second half
`[-180, lon_max - 360] = [-180, -190]` violates `min_lon ≤ max_lon`;
the R-tree insert therefore raises instead of storing it — only the
first half is stored and the ingestion fails.  So it is not the case
that each split half is an independently valid box for every input
triggering the split. -/
theorem C4_cex :
    isErr (emitTiles (initCatalog 493 100) "/data/pass1.nc" 0 1 0 0
        (-170) 170 100 200) = true ∧
    (resState (emitTiles (initCatalog 493 100) "/data/pass1.nc" 0 1 0 0
        (-170) 170 100 200)).metadata.map
        (fun p => (p.2.bbox.min_lon, p.2.bbox.max_lon)) =
      [(-170, 180)] ∧
    ¬ ((-180 : Int) ≤ (170 - 360 : Int)) := by
  exact ⟨rfl, rfl, by decide⟩

/-- Claim C4 (amended): every tile actually stored in the catalog has a
valid bbox (`min_lon ≤ max_lon` and `min_lat ≤ max_lat`) — not because
each split half is valid, but because the R-tree insert validates the
box and raises before either structure is written.  In particular the
second antimeridian half `[-180, lon_max - 360]` is rejected exactly
when `lon_max < 180`, crashing `add_file` instead of storing an
inverted box. -/
theorem C4_amended_stored_boxes_valid (c : Catalog) (f : SwathFile)
    (tsArg : Option Nat) (ok : Bool) (h : validCat c) :
    validCat (resState (add_file c f tsArg ok)) ∧
    ∀ (c2 : Catalog) (fp : String) (ls le : Nat)
      (lat1 lat2 lon2 t1 t2 : Int), lat1 ≤ lat2 →
      (isErr (addTile c2 fp ls le lat1 lat2 (-180) (lon2 - 360) t1 t2) =
        true ↔ lon2 < 180) := by
  constructor
  · exact validCat_add_file h f tsArg ok
  · intro c2 fp ls le lat1 lat2 lon2 t1 t2 hlat
    unfold addTile
    split
    · rename_i hcond
      simp only [isErr]
      constructor
      · intro h1
        omega
      · intro h1
        trivial
    · rename_i hcond
      simp only [isErr]
      constructor
      · intro h1
        exact absurd h1 (by simp)
      · intro h1
        omega

/-- Witness for C4 (amended): the state left by ingesting
`demoSeamFile` stores only valid boxes. -/
theorem C4_witness : validCat seamCat :=
  (C4_amended_stored_boxes_valid (initCatalog 493 100) demoSeamFile
    none true (fun p hp => absurd hp (by simp [initCatalog]))).1

/-- Claim C5 counterexample: a tile with `time_range = (-10, -1)` is
returned by a query that supplies `time_start = 0`, although its
`time_range.max = -1 < 0` — a supplied-but-falsy bound is ignored by the
truthiness guard, so "given" in the claim cannot mean "supplied". -/
theorem C5_cex :
    query timeCat 0 0 0 0 (some 0) none =
      [⟨"/data/t.nc", (0, 1), ⟨0, 0, 0, 0⟩⟩] ∧
    (timeCat.metadata.map (fun p => p.2.time_range)).getD 0 (0, 0) =
      (-10, -1) ∧
    ((-1 : Int) < 0) := by
  exact ⟨rfl, rfl, by decide⟩

/-- Claim C5 (amended): for time bounds that are either absent or truthy
(non-zero), a spatially candidate tile is kept iff its time range
overlaps `[time_start, time_end]`, boundary equality included, an absent
bound imposing no constraint — i.e. `query` agrees with the spec's
overlap filter.  A supplied falsy bound (`0`) imposes no constraint. -/
theorem C5_amended_time_filter (c : Catalog) (lat1 lat2 lon1 lon2 : Int)
    (ts te : Option Int) (hts : ts ≠ some 0) (hte : te ≠ some 0) :
    query c lat1 lat2 lon1 lon2 ts te =
      querySpecOverlap c lat1 lat2 lon1 lon2 ts te := by
  unfold query querySpecOverlap
  apply List.filterMap_congr
  intro p hp
  rcases hm : lookupMeta c.metadata p.1 with _ | m
  · rfl
  · exact timeFilter_eq ts te m.time_range hts hte _

/-- Witness for C5 (amended) at a truthy bound. -/
theorem C5_witness :
    query timeCat 0 0 0 0 (some (-5)) none =
      querySpecOverlap timeCat 0 0 0 0 (some (-5)) none :=
  C5_amended_time_filter timeCat 0 0 0 0 (some (-5)) none
    (by decide) (by decide)

/-- Claim C6: after `save()` then `load()`, the rebuilt index answers
every query identically to the pre-save index (given the lockstep
invariant between R-tree and metadata, which `add_file` preserves from
any state satisfying it — so the R-tree rebuilt from the persisted tiles
map is query-equivalent to the incrementally built one). -/
theorem C6_save_load_roundtrip (c : Catalog) (ai : Nat)
    (h : lockstep c) :
    (∀ (lat1 lat2 lon1 lon2 : Int) (ts te : Option Int),
      query (loadSnap (save_data c) ai) lat1 lat2 lon1 lon2 ts te =
        query c lat1 lat2 lon1 lon2 ts te) ∧
    (∀ (f : SwathFile) (tsArg : Option Nat) (ok : Bool),
      lockstep (resState (add_file c f tsArg ok))) := by
  constructor
  · intro lat1 lat2 lon1 lon2 ts te
    have h' : c.spatial_idx = c.metadata.map (fun p => (p.1, p.2.bbox)) := h
    exact @query_ext (loadSnap (save_data c) ai) c (by rw [h']; rfl)
      rfl lat1 lat2 lon1 lon2 ts te
  · intro f tsArg ok
    exact lockstep_add_file h f tsArg ok

/-- Witness for C6 on a concrete two-tile catalog. -/
theorem C6_witness :
    query (loadSnap (save_data seamCat) 10) 0 0 (-180) 180 none none =
      query seamCat 0 0 (-180) 180 none none :=
  (C6_save_load_roundtrip seamCat 10 (by rfl)).1 0 0 (-180) 180
    none none

/-- Claim C10: `query` tests the presence of a time bound by Python
truthiness, so a supplied falsy bound (the number `0`) applies no
constraint on its side and the results equal those of the query with
that bound omitted. -/
theorem C10_falsy_time_bound_ignored (c : Catalog)
    (lat1 lat2 lon1 lon2 : Int) (ts te : Option Int) :
    query c lat1 lat2 lon1 lon2 (some 0) te =
      query c lat1 lat2 lon1 lon2 none te ∧
    query c lat1 lat2 lon1 lon2 ts (some 0) =
      query c lat1 lat2 lon1 lon2 ts none := by
  constructor <;> rfl

/-- Claim C7 counterexample: `demoSeamFile` is readable, yet its first
ingestion raises (the R-tree rejects the inverted second antimeridian
half) with one tile stored and the path unindexed, and a second call on
the same path is not a skip: it re-tiles and raises again, leaving two
stored tiles — the state after two calls differs from the state after
one. -/
theorem C7_cex :
    readable demoSeamFile ∧
    isErr (add_file (initCatalog 493 100) demoSeamFile none true)
      = true ∧
    seamCat.metadata.length = 1 ∧
    isErr (add_file seamCat demoSeamFile none true) = true ∧
    (resState (add_file seamCat demoSeamFile none true)).metadata.length
      = 2 := by
  exact ⟨by decide, rfl, rfl, rfl, rfl⟩

/-- Claim C7 (amended): idempotence holds for every invocation that
completes normally: if `add_file` returns (success or skip) with state
`c1`, a second call on the same path is a skip that returns `c1`
unchanged (tiles map, id counter, `indexed_files` and R-tree included).
A first call that raises mid-ingestion is not idempotent — the retry
re-tiles and accumulates tiles (see the counterexample). -/
theorem C7_add_file_idempotent (c : Catalog) (f : SwathFile)
    (tsArg : Option Nat) (ok1 ok2 : Bool) (c1 : Catalog)
    (h : add_file c f tsArg ok1 = .ok c1) :
    add_file c1 f tsArg ok2 = .ok c1 := by
  unfold add_file at h
  by_cases hmem : f.path ∈ (baseStep c f).indexed_files
  · rw [if_pos hmem] at h
    have hc1 : baseStep c f = c1 := by simpa using h
    subst hc1
    have hbs : baseStep (baseStep c f) f = baseStep c f :=
      baseStep_of_isSome f (baseStep_isSome c f)
    unfold add_file
    rw [hbs, if_pos hmem]
  · rw [if_neg hmem] at h
    rcases hp : processTiles (baseStep c f) f
        (tileRanges f.lines.length (tsArg.getD (baseStep c f).tile_size))
      with e | c1'
    · rw [hp] at h
      exact absurd h (by simp)
    · rw [hp] at h
      have hc1 : finishAdd c1' f ok1 = c1 := by simpa using h
      have hg := growsFrom_processTiles f
        (tileRanges f.lines.length (tsArg.getD (baseStep c f).tile_size))
        (baseStep c f)
      rw [hp] at hg
      obtain ⟨_, _, _, hif, hbp, _, _, _⟩ := hg
      obtain ⟨_, _, _, hfif, hfbp, _⟩ := finishAdd_fields c1' f ok1
      have hb1 : c1.base_path ≠ none := by
        rw [← hc1, hfbp]
        have hbp' : c1'.base_path = (baseStep c f).base_path := hbp
        rw [hbp']
        exact baseStep_isSome c f
      have hmem2 : f.path ∈ c1.indexed_files := by
        rw [← hc1, hfif]
        simp
      unfold add_file
      rw [baseStep_of_isSome f hb1, if_pos hmem2]

/-- Witness for C7 (amended): ingesting `demoFixedFile` succeeds, and a
second call on the same path returns the same state. -/
theorem C7_witness :
    add_file fixedCat demoFixedFile none true = .ok fixedCat :=
  C7_add_file_idempotent (initCatalog 1 100) demoFixedFile none true
    true fixedCat rfl

/-- Claim C8 counterexample: on a fresh catalog (`base_path = none`), an
`add_file` invocation that fails while reading the source nevertheless
sets `base_path` to the file's parent directory — the assignment runs
before the skip check and before the file is opened. -/
theorem C8_cex :
    isErr (add_file (initCatalog 493 100) demoBadFile none true) = true ∧
    (resState (add_file (initCatalog 493 100) demoBadFile none true)
      ).base_path = some "/data" ∧
    (initCatalog 493 100).base_path = none := by
  exact ⟨rfl, rfl, rfl⟩

/-- Claim C8 (amended): `base_path` is set to the file's parent
directory by the first `add_file` invocation made while it is unset,
whether that invocation succeeds, fails, or is skipped; an invocation
made while it is set never changes it (only the explicit remap does). -/
theorem C8_amended_base_path (c : Catalog) (f : SwathFile)
    (tsArg : Option Nat) (ok : Bool) :
    (resState (add_file c f tsArg ok)).base_path =
      (match c.base_path with
       | none => some (parentDir f.path)
       | some b => some b) := by
  rw [← baseStep_base_path c f]
  unfold add_file
  split
  · rfl
  · rcases hp : processTiles (baseStep c f) f
        (tileRanges f.lines.length (tsArg.getD (baseStep c f).tile_size))
      with e | c1
    · have hg := growsFrom_processTiles f
        (tileRanges f.lines.length (tsArg.getD (baseStep c f).tile_size))
        (baseStep c f)
      rw [hp] at hg
      exact hg.2.2.2.2.1
    · have hg := growsFrom_processTiles f
        (tileRanges f.lines.length (tsArg.getD (baseStep c f).tile_size))
        (baseStep c f)
      rw [hp] at hg
      have hfin := (finishAdd_fields c1 f ok).2.2.2.2.1
      show (finishAdd c1 f ok).base_path = (baseStep c f).base_path
      rw [hfin]
      exact hg.2.2.2.2.1

/-- Claim C9: a failure part-way through `add_file` (unreadable line or
R-tree rejection) propagates and is not rolled back — the tiles created
before the failure stay in the metadata map and the R-tree under their
allocated ids, the id counter keeps its advanced value, and the path is
not recorded in `indexed_files`.  A later call on the same path is
therefore not a skip: it re-tiles the whole file afresh, keeping every
leftover partial tile in place and allocating only fresh ids for the
new tiles, whatever its own outcome; when that retry completes, the
path is then recorded in `indexed_files`. -/
theorem C9_no_rollback_on_failure (c : Catalog) (f : SwathFile)
    (tsArg : Option Nat) (ok : Bool) (c' : Catalog) (f2 : SwathFile)
    (tsArg2 : Option Nat) (ok2 : Bool)
    (herr : add_file c f tsArg ok = .error c')
    (hpath : f2.path = f.path) :
    f.path ∉ c.indexed_files ∧
    c'.indexed_files = c.indexed_files ∧
    c'.metadata.take c.metadata.length = c.metadata ∧
    c'.spatial_idx.take c.spatial_idx.length = c.spatial_idx ∧
    c.file_counter ≤ c'.file_counter ∧
    (resState (add_file c' f2 tsArg2 ok2)).metadata.take
        c'.metadata.length = c'.metadata ∧
    (∀ p ∈ (resState (add_file c' f2 tsArg2 ok2)).metadata.drop
        c'.metadata.length, c'.file_counter ≤ p.1) ∧
    ∀ c'', add_file c' f2 tsArg2 ok2 = .ok c'' →
      f.path ∈ c''.indexed_files := by
  obtain ⟨hbm, hbs, hbc, hbi, hbt⟩ := baseStep_fields c f
  unfold add_file at herr
  by_cases hmem : f.path ∈ (baseStep c f).indexed_files
  · rw [if_pos hmem] at herr
    exact absurd herr (by simp)
  · rw [if_neg hmem] at herr
    rcases hp : processTiles (baseStep c f) f
        (tileRanges f.lines.length (tsArg.getD (baseStep c f).tile_size))
      with e | c1
    · rw [hp] at herr
      have hec : e = c' := by simpa using herr
      subst hec
      have hg := growsFrom_processTiles f
        (tileRanges f.lines.length (tsArg.getD (baseStep c f).tile_size))
        (baseStep c f)
      rw [hp] at hg
      obtain ⟨⟨t, hmeta, _⟩, ⟨s, hspat⟩, hcount, hif, hbp, _, _, _⟩ := hg
      have hmeta' : e.metadata = c.metadata ++ t := by
        have h0 : e.metadata = (baseStep c f).metadata ++ t := hmeta
        rw [h0, hbm]
      have hspat' : e.spatial_idx = c.spatial_idx ++ s := by
        have h0 : e.spatial_idx = (baseStep c f).spatial_idx ++ s := hspat
        rw [h0, hbs]
      have hif' : e.indexed_files = c.indexed_files := by
        have h0 : e.indexed_files = (baseStep c f).indexed_files := hif
        rw [h0, hbi]
      have hbp' : e.base_path = (baseStep c f).base_path := hbp
      have hb1 : e.base_path ≠ none := by
        rw [hbp']
        exact baseStep_isSome c f
      have hbs2 : baseStep e f2 = e := baseStep_of_isSome f2 hb1
      have hmem2 : f2.path ∉ e.indexed_files := by
        rw [hpath, hif', ← hbi]
        exact hmem
      have hadd : add_file e f2 tsArg2 ok2 =
          match processTiles e f2
              (tileRanges f2.lines.length (tsArg2.getD e.tile_size)) with
          | .error e2 => .error e2
          | .ok cr => .ok (finishAdd cr f2 ok2) := by
        unfold add_file
        rw [hbs2, if_neg hmem2]
      have hg2 := growsFrom_processTiles f2
        (tileRanges f2.lines.length (tsArg2.getD e.tile_size)) e
      refine ⟨?_, hif', ?_, ?_, ?_, ?_, ?_, ?_⟩
      · rw [← hbi]; exact hmem
      · rw [hmeta', List.take_left]
      · rw [hspat', List.take_left]
      · calc c.file_counter = (baseStep c f).file_counter := hbc.symm
          _ ≤ _ := hcount
      · rcases hP : processTiles e f2
            (tileRanges f2.lines.length (tsArg2.getD e.tile_size))
          with e2 | cr
        · rw [hP] at hadd hg2
          have hadd2 : add_file e f2 tsArg2 ok2 = .error e2 := hadd
          obtain ⟨⟨t2, hmeta2, _⟩, _, _, _, _, _, _, _⟩ := hg2
          have hm2 : e2.metadata = e.metadata ++ t2 := hmeta2
          rw [hadd2]
          show e2.metadata.take e.metadata.length = e.metadata
          rw [hm2, List.take_left]
        · rw [hP] at hadd hg2
          have hadd2 : add_file e f2 tsArg2 ok2 =
              .ok (finishAdd cr f2 ok2) := hadd
          obtain ⟨⟨t2, hmeta2, _⟩, _, _, _, _, _, _, _⟩ := hg2
          have hm2 : cr.metadata = e.metadata ++ t2 := hmeta2
          rw [hadd2]
          show (finishAdd cr f2 ok2).metadata.take e.metadata.length =
            e.metadata
          rw [(finishAdd_fields cr f2 ok2).1, hm2, List.take_left]
      · intro p hpmem
        rcases hP : processTiles e f2
            (tileRanges f2.lines.length (tsArg2.getD e.tile_size))
          with e2 | cr
        · rw [hP] at hadd hg2
          have hadd2 : add_file e f2 tsArg2 ok2 = .error e2 := hadd
          obtain ⟨⟨t2, hmeta2, hids2⟩, _, _, _, _, _, _, _⟩ := hg2
          have hm2 : e2.metadata = e.metadata ++ t2 := hmeta2
          rw [hadd2] at hpmem
          have hpm : p ∈ t2 := by
            have h0 : (resState (Except.error e2)).metadata =
              e2.metadata := rfl
            rw [h0, hm2, List.drop_left] at hpmem
            exact hpmem
          exact hids2 p hpm
        · rw [hP] at hadd hg2
          have hadd2 : add_file e f2 tsArg2 ok2 =
              .ok (finishAdd cr f2 ok2) := hadd
          obtain ⟨⟨t2, hmeta2, hids2⟩, _, _, _, _, _, _, _⟩ := hg2
          have hm2 : cr.metadata = e.metadata ++ t2 := hmeta2
          rw [hadd2] at hpmem
          have hpm : p ∈ t2 := by
            have h0 : (resState (Except.ok (finishAdd cr f2 ok2))
              ).metadata = (finishAdd cr f2 ok2).metadata := rfl
            rw [h0, (finishAdd_fields cr f2 ok2).1, hm2,
              List.drop_left] at hpmem
            exact hpmem
          exact hids2 p hpm
      · intro c'' h''
        rcases hP : processTiles e f2
            (tileRanges f2.lines.length (tsArg2.getD e.tile_size))
          with e2 | cr
        · rw [hP] at hadd
          have hadd2 : add_file e f2 tsArg2 ok2 = .error e2 := hadd
          rw [hadd2] at h''
          exact absurd h'' (by simp)
        · rw [hP] at hadd
          have hadd2 : add_file e f2 tsArg2 ok2 =
              .ok (finishAdd cr f2 ok2) := hadd
          rw [hadd2] at h''
          have hc'' : finishAdd cr f2 ok2 = c'' := by simpa using h''
          rw [← hc'', (finishAdd_fields cr f2 ok2).2.2.2.1, ← hpath]
          simp
    · rw [hp] at herr
      exact absurd herr (by simp)

/-- Witness for C9: the failed ingestion of `demoPartFile` leaves
`indexed_files` unchanged. -/
theorem C9_witness :
    (resState (add_file (initCatalog 1 100) demoPartFile none true)
      ).indexed_files = (initCatalog 1 100).indexed_files := by
  have h := C9_no_rollback_on_failure (initCatalog 1 100) demoPartFile none
    true (resState (add_file (initCatalog 1 100) demoPartFile none true))
    demoFixedFile none true rfl rfl
  exact h.2.1

end SwotDB
